import Mathlib

/-!
Verification development for the GoResyBot reservation service.

The definitions below are a shallow embedding of the Go source:
the slot-matching loop inside `Reserve` (api/resy/api.go), the
Imperva-challenge retry client (`doRequestWithRetry`,
`isImpervaChallenge`, `extractCookiesFromResponse`), the Redis-backed
scheduled-reservation store (store/reservations.go), the scheduler loop
(`handleScheduledReservations` in main.go), and the admin-token checks
(`validateAdminToken` in main.go, `Config.ValidateAdminToken` in
config/config.go).  Times are modelled at the minute granularity the
code works at (reservation targets are parsed from `"2006-01-02T15:04"`
and slot times force `":00"` seconds); machine timestamps are `Int`
Unix seconds.
-/

set_option autoImplicit false

namespace ResyBot

/-- A civil timestamp in the venue's local (NYC) timezone, at minute
granularity.  This embeds the `time.Time` values the slot loop compares
after both sides have been converted with `.In(nycLocation)`. -/
structure NYCTime where
  year : Int
  month : Nat
  day : Nat
  hour : Nat
  minute : Nat
deriving Repr, DecidableEq

/-- A well-formed reservation slot as read out of the find response:
its parsed local start time, the `config.type` table label and the
`config.token` used for the detail call.  (Slots whose JSON lacks one of
these keys are skipped by the source with `continue` before any of the
checks modelled here run.) -/
structure Slot where
  start : NYCTime
  tableType : String
  configToken : String
deriving Repr, DecidableEq

/-- The same-calendar-date test of the slot loop:
`slotTime.Year() == currentTimeNYC.Year() && ... Month ... && ... Day`. -/
def sameDate (a b : NYCTime) : Bool :=
  a.year == b.year && a.month == b.month && a.day == b.day

def minutesOfDay (t : NYCTime) : Nat := t.hour * 60 + t.minute

/-- `slotTime.Sub(currentTimeNYC)` followed by the manual absolute-value
step, in minutes.  Both sides are on the same calendar date whenever the
loop reaches this computation, so the duration is the minute-of-day
difference. -/
def absMinuteDiff (a b : NYCTime) : Nat :=
  (Int.ofNat (minutesOfDay a) - Int.ofNat (minutesOfDay b)).natAbs

/-- `timeMatches`: `slotTime.Hour() == currentTimeNYC.Hour() &&
slotTime.Minute() == currentTimeNYC.Minute()`. -/
def exactTimeMatch (s t : NYCTime) : Bool :=
  s.hour == t.hour && s.minute == t.minute

/-- `strings.Contains(haystack, needle)`: `needle` occurs as a
contiguous substring of `haystack`. -/
def strContains (haystack needle : String) : Bool :=
  go haystack.data needle.data
where
  go : List Char → List Char → Bool
  | [], needle => needle.isEmpty
  | hay@(_ :: rest), needle => needle.isPrefixOf hay || go rest needle

/-- `strings.ToLower` restricted to the ASCII range the table-type
labels use. -/
def lowerAscii (s : String) : String :=
  String.mk (s.data.map Char.toLower)

/-- The table-type check of the slot loop.  With no preference every
slot is accepted; with preference `p` the source keeps the slot iff
`strings.Contains(strings.ToLower(tableType), string(currentTableType))`
— note only the label is lowercased, the preference string is used
verbatim. -/
def passesTableFilter (pref : Option String) (s : Slot) : Bool :=
  match pref with
  | none => true
  | some p => strContains (lowerAscii s.tableType) p

/-- The inner slot-search loop of `Reserve` for one
(table-preference, requested-time) pair, with the accumulator
`best`/`bestDiff` mirroring `bestSlot`/`bestTimeDiff` (initial value 31
minutes, window bound 30 minutes).  An exact hour:minute match breaks
out of the loop immediately. -/
def slotSearch (target : NYCTime) (pref : Option String) :
    List Slot → Option Slot → Nat → Option Slot
  | [], best, _ => best
  | s :: rest, best, bestDiff =>
    if sameDate s.start target = false then
      slotSearch target pref rest best bestDiff
    else if passesTableFilter pref s = false then
      slotSearch target pref rest best bestDiff
    else if exactTimeMatch s.start target then
      some s
    else
      if absMinuteDiff s.start target ≤ 30 ∧ absMinuteDiff s.start target < bestDiff then
        slotSearch target pref rest (some s) (absMinuteDiff s.start target)
      else
        slotSearch target pref rest best bestDiff

/-- The slot search over a whole slot list, started the way `Reserve`
initialises it: no best slot yet and `bestTimeDiff = 31` minutes. -/
def findBestSlot (slots : List Slot) (target : NYCTime) (pref : Option String) : Option Slot :=
  slotSearch target pref slots none 31

/-- A slot qualifies for a given pair when it is on the requested date
and passes the table-type filter. -/
def qualifies (target : NYCTime) (pref : Option String) (s : Slot) : Bool :=
  sameDate s.start target && passesTableFilter pref s

lemma qualifies_eq_true {target : NYCTime} {pref : Option String} {s : Slot} :
    qualifies target pref s = true ↔
      sameDate s.start target = true ∧ passesTableFilter pref s = true := by
  simp [qualifies]

lemma absMinuteDiff_of_exact {s t : NYCTime} (h : exactTimeMatch s t = true) :
    absMinuteDiff s t = 0 := by
  simp only [exactTimeMatch, Bool.and_eq_true, beq_iff_eq] at h
  simp [absMinuteDiff, minutesOfDay, h.1, h.2]

/-- Invariant carried by the `bestSlot`/`bestTimeDiff` accumulator of the
slot-search loop. -/
def SearchInv (target : NYCTime) (pref : Option String)
    (best : Option Slot) (bestDiff : Nat) : Prop :=
  bestDiff ≤ 31 ∧
  (∀ b, best = some b →
    qualifies target pref b = true ∧ exactTimeMatch b.start target = false ∧
    absMinuteDiff b.start target = bestDiff ∧ bestDiff ≤ 30)

lemma searchInv_init (target : NYCTime) (pref : Option String) :
    SearchInv target pref none 31 :=
  ⟨Nat.le_refl 31, fun b hb => by cases hb⟩

lemma slotSearch_sound (target : NYCTime) (pref : Option String) (l : List Slot) :
    ∀ (best : Option Slot) (bd : Nat), SearchInv target pref best bd →
      ∀ s, slotSearch target pref l best bd = some s →
        (s ∈ l ∨ best = some s) ∧ qualifies target pref s = true ∧
        (exactTimeMatch s.start target = true ∨ absMinuteDiff s.start target ≤ 30) := by
  induction l with
  | nil =>
    intro best bd hinv s h
    simp only [slotSearch] at h
    obtain ⟨hq, hex, hd, hd30⟩ := hinv.2 s h
    exact ⟨Or.inr h, hq, Or.inr (hd ▸ hd30)⟩
  | cons s0 rest ih =>
    intro best bd hinv s h
    simp only [slotSearch] at h
    by_cases hdate : sameDate s0.start target = false
    · rw [if_pos hdate] at h
      obtain ⟨hmem, hq, hw⟩ := ih best bd hinv s h
      exact ⟨hmem.imp_left (List.mem_cons_of_mem s0) , hq, hw⟩
    · rw [if_neg hdate] at h
      have hdate' : sameDate s0.start target = true := by
        revert hdate; cases sameDate s0.start target <;> simp
      by_cases hfil : passesTableFilter pref s0 = false
      · rw [if_pos hfil] at h
        obtain ⟨hmem, hq, hw⟩ := ih best bd hinv s h
        exact ⟨hmem.imp_left (List.mem_cons_of_mem s0), hq, hw⟩
      · rw [if_neg hfil] at h
        have hfil' : passesTableFilter pref s0 = true := by
          revert hfil; cases passesTableFilter pref s0 <;> simp
        by_cases hex : exactTimeMatch s0.start target = true
        · rw [if_pos hex] at h
          cases h
          exact ⟨Or.inl (List.mem_cons_self _ _),
            qualifies_eq_true.mpr ⟨hdate', hfil'⟩, Or.inl hex⟩
        · rw [if_neg hex] at h
          by_cases hnear : absMinuteDiff s0.start target ≤ 30 ∧
              absMinuteDiff s0.start target < bd
          · rw [if_pos hnear] at h
            have hinv' : SearchInv target pref (some s0) (absMinuteDiff s0.start target) := by
              refine ⟨Nat.le_trans hnear.1 (by omega), fun b hb => ?_⟩
              cases hb
              refine ⟨qualifies_eq_true.mpr ⟨hdate', hfil'⟩, ?_, rfl, hnear.1⟩
              revert hex; cases exactTimeMatch s0.start target <;> simp
            obtain ⟨hmem, hq, hw⟩ := ih _ _ hinv' s h
            rcases hmem with hmem | hbest
            · exact ⟨Or.inl (List.mem_cons_of_mem s0 hmem), hq, hw⟩
            · cases hbest
              exact ⟨Or.inl (List.mem_cons_self _ _), hq, hw⟩
          · rw [if_neg hnear] at h
            obtain ⟨hmem, hq, hw⟩ := ih best bd hinv s h
            exact ⟨hmem.imp_left (List.mem_cons_of_mem s0), hq, hw⟩

lemma slotSearch_min (target : NYCTime) (pref : Option String) (l : List Slot) :
    ∀ (best : Option Slot) (bd : Nat), SearchInv target pref best bd →
      ∀ s, slotSearch target pref l best bd = some s →
        exactTimeMatch s.start target = false →
        absMinuteDiff s.start target ≤ bd ∧
        ∀ s' ∈ l, qualifies target pref s' = true →
          absMinuteDiff s.start target ≤ absMinuteDiff s'.start target := by
  induction l with
  | nil =>
    intro best bd hinv s h hsex
    simp only [slotSearch] at h
    obtain ⟨hq, hex, hd, hd30⟩ := hinv.2 s h
    exact ⟨Nat.le_of_eq hd, fun s' hs' => absurd hs' (List.not_mem_nil s')⟩
  | cons s0 rest ih =>
    intro best bd hinv s h hsex
    simp only [slotSearch] at h
    by_cases hdate : sameDate s0.start target = false
    · rw [if_pos hdate] at h
      obtain ⟨hle, hall⟩ := ih best bd hinv s h hsex
      refine ⟨hle, fun s' hs' hq => ?_⟩
      rcases List.mem_cons.mp hs' with rfl | hs'
      · exact absurd (qualifies_eq_true.mp hq).1 (by simp [hdate])
      · exact hall s' hs' hq
    · rw [if_neg hdate] at h
      have hdate' : sameDate s0.start target = true := by
        revert hdate; cases sameDate s0.start target <;> simp
      by_cases hfil : passesTableFilter pref s0 = false
      · rw [if_pos hfil] at h
        obtain ⟨hle, hall⟩ := ih best bd hinv s h hsex
        refine ⟨hle, fun s' hs' hq => ?_⟩
        rcases List.mem_cons.mp hs' with rfl | hs'
        · exact absurd (qualifies_eq_true.mp hq).2 (by simp [hfil])
        · exact hall s' hs' hq
      · rw [if_neg hfil] at h
        have hfil' : passesTableFilter pref s0 = true := by
          revert hfil; cases passesTableFilter pref s0 <;> simp
        by_cases hex : exactTimeMatch s0.start target = true
        · rw [if_pos hex] at h
          cases h
          exact absurd hex (by simp [hsex])
        · rw [if_neg hex] at h
          by_cases hnear : absMinuteDiff s0.start target ≤ 30 ∧
              absMinuteDiff s0.start target < bd
          · rw [if_pos hnear] at h
            have hinv' : SearchInv target pref (some s0) (absMinuteDiff s0.start target) := by
              refine ⟨Nat.le_trans hnear.1 (by omega), fun b hb => ?_⟩
              cases hb
              refine ⟨qualifies_eq_true.mpr ⟨hdate', hfil'⟩, ?_, rfl, hnear.1⟩
              revert hex; cases exactTimeMatch s0.start target <;> simp
            obtain ⟨hle, hall⟩ := ih _ _ hinv' s h hsex
            refine ⟨Nat.le_trans hle (Nat.le_of_lt hnear.2), fun s' hs' hq => ?_⟩
            rcases List.mem_cons.mp hs' with rfl | hs'
            · exact hle
            · exact hall s' hs' hq
          · rw [if_neg hnear] at h
            obtain ⟨hle, hall⟩ := ih best bd hinv s h hsex
            refine ⟨hle, fun s' hs' hq => ?_⟩
            rcases List.mem_cons.mp hs' with rfl | hs'
            · have hbd31 : bd ≤ 31 := hinv.1
              have : bd ≤ absMinuteDiff s'.start target := by
                rcases Decidable.not_and_iff_or_not.mp hnear with hgt | hge
                · omega
                · omega
              exact Nat.le_trans hle this
            · exact hall s' hs' hq

lemma slotSearch_none_of_far (target : NYCTime) (pref : Option String) (l : List Slot)
    (hfar : ∀ s' ∈ l, qualifies target pref s' = true →
      30 < absMinuteDiff s'.start target) :
    slotSearch target pref l none 31 = none := by
  induction l with
  | nil => rfl
  | cons s0 rest ih =>
    have ihrest := ih (fun s' hs' hq => hfar s' (List.mem_cons_of_mem s0 hs') hq)
    simp only [slotSearch]
    by_cases hdate : sameDate s0.start target = false
    · rw [if_pos hdate]; exact ihrest
    · rw [if_neg hdate]
      have hdate' : sameDate s0.start target = true := by
        revert hdate; cases sameDate s0.start target <;> simp
      by_cases hfil : passesTableFilter pref s0 = false
      · rw [if_pos hfil]; exact ihrest
      · rw [if_neg hfil]
        have hfil' : passesTableFilter pref s0 = true := by
          revert hfil; cases passesTableFilter pref s0 <;> simp
        have hq0 : qualifies target pref s0 = true := qualifies_eq_true.mpr ⟨hdate', hfil'⟩
        have h30 : 30 < absMinuteDiff s0.start target :=
          hfar s0 (List.mem_cons_self _ _) hq0
        by_cases hex : exactTimeMatch s0.start target = true
        · exact absurd (absMinuteDiff_of_exact hex) (by omega)
        · rw [if_neg hex]
          rw [if_neg (by omega : ¬(absMinuteDiff s0.start target ≤ 30 ∧
            absMinuteDiff s0.start target < 31))]
          exact ihrest

lemma slotSearch_first_exact (target : NYCTime) (pref : Option String) (l : List Slot) :
    ∀ (best : Option Slot) (bd : Nat) (e : Slot),
      List.find? (fun s => qualifies target pref s && exactTimeMatch s.start target) l
        = some e →
      slotSearch target pref l best bd = some e := by
  induction l with
  | nil => intro best bd e h; simp at h
  | cons s0 rest ih =>
    intro best bd e h
    rw [List.find?_cons] at h
    simp only [slotSearch]
    by_cases hp : (qualifies target pref s0 && exactTimeMatch s0.start target) = true
    · simp only [hp] at h
      cases h
      obtain ⟨hq, hex⟩ := Bool.and_eq_true_iff.mp hp
      obtain ⟨hdate', hfil'⟩ := qualifies_eq_true.mp hq
      rw [if_neg (by simp [hdate']), if_neg (by simp [hfil']), if_pos hex]
    · rw [Bool.not_eq_true] at hp
      simp only [hp] at h
      by_cases hdate : sameDate s0.start target = false
      · rw [if_pos hdate]; exact ih best bd e h
      · rw [if_neg hdate]
        have hdate' : sameDate s0.start target = true := by
          revert hdate; cases sameDate s0.start target <;> simp
        by_cases hfil : passesTableFilter pref s0 = false
        · rw [if_pos hfil]; exact ih best bd e h
        · rw [if_neg hfil]
          have hfil' : passesTableFilter pref s0 = true := by
            revert hfil; cases passesTableFilter pref s0 <;> simp
          by_cases hex : exactTimeMatch s0.start target = true
          · have : (qualifies target pref s0 && exactTimeMatch s0.start target) = true := by
              simp [qualifies_eq_true.mpr ⟨hdate', hfil'⟩, hex]
            rw [hp] at this
            cases this
          · rw [if_neg hex]
            by_cases hnear : absMinuteDiff s0.start target ≤ 30 ∧
                absMinuteDiff s0.start target < bd
            · rw [if_pos hnear]; exact ih _ _ e h
            · rw [if_neg hnear]; exact ih best bd e h

/-- C1: a slot is selected by the slot search only if it lies on the
requested local calendar date (and passes the table-type filter) and is
either an exact hour:minute match or within 30 minutes of the requested
time (boundary included); a selected non-exact slot has minimal
absolute time delta among all qualifying candidates; and if every
qualifying candidate is more than 30 minutes away, no slot is
selected. -/
theorem slotMatcher_window_and_minimality (slots : List Slot) (target : NYCTime)
    (pref : Option String) :
    (∀ s, findBestSlot slots target pref = some s →
      s ∈ slots ∧ sameDate s.start target = true ∧ passesTableFilter pref s = true ∧
      (exactTimeMatch s.start target = true ∨ absMinuteDiff s.start target ≤ 30) ∧
      (exactTimeMatch s.start target = false →
        ∀ s' ∈ slots, qualifies target pref s' = true →
          absMinuteDiff s.start target ≤ absMinuteDiff s'.start target)) ∧
    ((∀ s' ∈ slots, qualifies target pref s' = true →
        30 < absMinuteDiff s'.start target) →
      findBestSlot slots target pref = none) := by
  constructor
  · intro s h
    obtain ⟨hmem, hq, hw⟩ :=
      slotSearch_sound target pref slots none 31 (searchInv_init target pref) s h
    have hmem' : s ∈ slots := by
      rcases hmem with hmem | hbest
      · exact hmem
      · cases hbest
    obtain ⟨hdate, hfil⟩ := qualifies_eq_true.mp hq
    refine ⟨hmem', hdate, hfil, hw, fun hnex => ?_⟩
    exact (slotSearch_min target pref slots none 31 (searchInv_init target pref)
      s h hnex).2
  · intro hfar
    exact slotSearch_none_of_far target pref slots hfar

/-- Witness for C1: with the single slot 19:20 "Dining Room" on
2025-12-01 and target 19:00, the returned slot is on the right date and
within the 30-minute window; and a lone 19:35 slot (45 minutes away)
yields no selection. -/
theorem slotMatcher_window_and_minimality_witness :
    (sameDate (NYCTime.mk 2025 12 1 19 20) (NYCTime.mk 2025 12 1 19 0) = true ∧
      absMinuteDiff (NYCTime.mk 2025 12 1 19 20) (NYCTime.mk 2025 12 1 19 0) ≤ 30) ∧
    findBestSlot [Slot.mk (NYCTime.mk 2025 12 1 19 35) "Dining Room" "tok"]
      (NYCTime.mk 2025 12 1 19 0) none = none := by
  constructor
  · have h := (slotMatcher_window_and_minimality
      [Slot.mk (NYCTime.mk 2025 12 1 19 20) "Dining Room" "tok"]
      (NYCTime.mk 2025 12 1 19 0) none).1
      (Slot.mk (NYCTime.mk 2025 12 1 19 20) "Dining Room" "tok") (by decide)
    refine ⟨h.2.1, ?_⟩
    rcases h.2.2.2.1 with hex | hle
    · exact absurd hex (by decide)
    · exact hle
  · exact (slotMatcher_window_and_minimality
      [Slot.mk (NYCTime.mk 2025 12 1 19 35) "Dining Room" "tok"]
      (NYCTime.mk 2025 12 1 19 0) none).2 (by decide)

/-- C2: whenever the slot list contains a slot that matches the
requested date, passes the table-type filter and whose local
hour:minute equals the requested hour:minute, the search returns the
first such slot in input order (`List.find?` order), regardless of any
closer-looking non-exact slot appearing earlier in the list. -/
theorem slotMatcher_exact_short_circuit (slots : List Slot) (target : NYCTime)
    (pref : Option String) (e : Slot)
    (hfind : List.find?
      (fun s => qualifies target pref s && exactTimeMatch s.start target) slots
      = some e) :
    findBestSlot slots target pref = some e :=
  slotSearch_first_exact target pref slots none 31 e hfind

/-- Witness for C2: with a closer-looking non-exact slot (18:50) before
the exact 19:00 slot, the exact slot is returned. -/
theorem slotMatcher_exact_short_circuit_witness :
    findBestSlot
      [Slot.mk (NYCTime.mk 2025 12 1 18 50) "Dining Room" "tokA",
        Slot.mk (NYCTime.mk 2025 12 1 19 0) "Dining Room" "tokB"]
      (NYCTime.mk 2025 12 1 19 0) none
      = some (Slot.mk (NYCTime.mk 2025 12 1 19 0) "Dining Room" "tokB") :=
  slotMatcher_exact_short_circuit _ _ none _ (by decide)

/-- The comparison the spec describes: the slot label contains the
filter string under case-insensitive comparison (both sides
lowercased). -/
def caseInsensitiveKept (p label : String) : Bool :=
  strContains (lowerAscii label) (lowerAscii p)

/-- Counterexample for C3: the filter `"DINING"` does not keep the label
`"Indoor Dining Room"` even though the case-insensitive containment of
the claim holds, so changing the case of the filter changes the
outcome. -/
theorem tableFilter_case_counterexample :
    passesTableFilter (some "DINING")
      (Slot.mk (NYCTime.mk 2025 12 1 19 0) "Indoor Dining Room" "tok") = false ∧
    caseInsensitiveKept "DINING" "Indoor Dining Room" = true ∧
    passesTableFilter (some "dining")
      (Slot.mk (NYCTime.mk 2025 12 1 19 0) "Indoor Dining Room" "tok") = true := by
  refine ⟨?_, ?_, ?_⟩ <;> decide

/-- C3 amended: with no filter every slot is accepted; with a filter the
slot is kept iff its lowercased label contains the filter string
verbatim — hence the outcome is invariant under changes of case of the
label, agrees with the case-insensitive containment whenever the filter
string is already lowercase (so `"dining"` matches `"Indoor Dining
Room"`), but changing the case of the filter can change the outcome. -/
theorem tableFilter_amended (p : String) (s s' : Slot) (t : NYCTime) (tok : String) :
    passesTableFilter none s = true ∧
    (lowerAscii s.tableType = lowerAscii s'.tableType →
      passesTableFilter (some p) s = passesTableFilter (some p) s') ∧
    (lowerAscii p = p → passesTableFilter (some p) s = caseInsensitiveKept p s.tableType) ∧
    passesTableFilter (some "dining") (Slot.mk t "Indoor Dining Room" tok) = true := by
  refine ⟨rfl, ?_, ?_, ?_⟩
  · intro hlabel
    simp [passesTableFilter, hlabel]
  · intro hlower
    simp [passesTableFilter, caseInsensitiveKept, hlower]
  · simp [passesTableFilter]
    decide

/-- Witness for C3 amended: concrete discharge of the label-case and
lowercase-filter hypotheses. -/
theorem tableFilter_amended_witness :
    passesTableFilter (some "dining")
        (Slot.mk (NYCTime.mk 2025 12 1 19 0) "INDOOR DINING ROOM" "tok")
      = passesTableFilter (some "dining")
        (Slot.mk (NYCTime.mk 2025 12 1 19 0) "Indoor Dining Room" "tok") :=
  ((tableFilter_amended "dining"
    (Slot.mk (NYCTime.mk 2025 12 1 19 0) "INDOOR DINING ROOM" "tok")
    (Slot.mk (NYCTime.mk 2025 12 1 19 0) "Indoor Dining Room" "tok")
    (NYCTime.mk 2025 12 1 19 0) "tok").2.1 (by decide))

/-! ## Challenge-aware client: cookies, challenge detection, retry -/

/-- An HTTP cookie as built by `extractCookiesFromResponse`.
`expiresRaw` records the raw `expires=` attribute value; the source
additionally parses it as an RFC1123 timestamp into the cookie's expiry
field, which no modelled check reads. -/
structure Cookie where
  name : String
  value : String
  domain : String
  path : String
  secure : Bool
  httpOnly : Bool
  expiresRaw : String
deriving Repr, DecidableEq

/-- The response data the client inspects: status code, the `X-Cdn` and
`Server` headers (empty string for an absent header, as Go's
`Header.Get` returns), and the list of `Set-Cookie` header values. -/
structure Resp where
  status : Nat
  xCdn : String
  server : String
  setCookies : List String
deriving Repr, DecidableEq

/-- `isImpervaChallenge`: status must be 500, 403 or 503, and either
`X-Cdn: Imperva` or (`Server: nginx` and status 500). -/
def isImpervaChallenge (r : Resp) : Bool :=
  if r.status ≠ 500 ∧ r.status ≠ 403 ∧ r.status ≠ 503 then false
  else if r.xCdn == "Imperva" then true
  else if r.server == "nginx" && r.status == 500 then true
  else false

/-- Go `strings.HasPrefix`. -/
def strStartsWith (s p : String) : Bool :=
  p.data.isPrefixOf s.data

/-- Go `strings.TrimSpace`: strip whitespace from both ends. -/
def strTrim (s : String) : String :=
  String.mk (((s.data.dropWhile Char.isWhitespace).reverse.dropWhile
    Char.isWhitespace).reverse)

/-- Split a character list at every occurrence of `sep`
(Go `strings.Split` with a one-character separator, which is the only
shape the source uses: `";"`, `"="` and `" "`). -/
def splitOnChar (sep : Char) : List Char → List (List Char)
  | [] => [[]]
  | c :: rest =>
    match splitOnChar sep rest with
    | [] => [[]]
    | grp :: grps =>
      if c == sep then [] :: grp :: grps else (c :: grp) :: grps

/-- Go `strings.Split(s, sep)` for a one-character separator. -/
def strSplitOn (s : String) (sep : Char) : List String :=
  (splitOnChar sep s.data).map String.mk

/-- The anti-bot cookie-name test of `extractCookiesFromResponse`. -/
def isImpervaCookieName (n : String) : Bool :=
  strStartsWith n "_incap_" || strStartsWith n "incap_ses_" ||
  strStartsWith n "_visid_" || strStartsWith n "visid_incap_" ||
  strStartsWith n "nlbi_"

/-- Go `strings.SplitN(s, sep, 2)`: at most two pieces, the second
keeping any further separators. -/
def splitN2 (s : String) (sep : Char) : List String :=
  match splitOnChar sep s.data with
  | [] => [s]
  | [x] => [String.mk x]
  | x :: rest => [String.mk x, String.mk (List.intercalate [sep] rest)]

/-- Go `strings.TrimPrefix`: drops `p` only when it actually is a
leading substring. -/
def trimPrefixGo (s p : String) : String :=
  if strStartsWith s p then String.mk (s.data.drop p.data.length) else s

/-- The body of the cookie-attribute loop applied to the already
trimmed attribute piece:
`domain=`/`path=`/`secure`/`httponly`/`expires=` are matched on the
lowercased piece, while the `domain=`/`path=`/`expires=` values are
trimmed off the original-case piece, exactly as the source's
`strings.TrimPrefix(part, ...)` does. -/
def applyCookieAttrTrimmed (c : Cookie) (part : String) : Cookie :=
  if strStartsWith (lowerAscii part) "domain=" then
    { c with domain := trimPrefixGo part "domain=" }
  else if strStartsWith (lowerAscii part) "path=" then
    { c with path := trimPrefixGo part "path=" }
  else if lowerAscii part == "secure" then
    { c with secure := true }
  else if lowerAscii part == "httponly" then
    { c with httpOnly := true }
  else if strStartsWith (lowerAscii part) "expires=" then
    { c with expiresRaw := trimPrefixGo part "expires=" }
  else c

/-- One iteration of the cookie-attribute loop:
`part := strings.TrimSpace(parts[i])`, then the attribute match. -/
def applyCookieAttr (c : Cookie) (part0 : String) : Cookie :=
  applyCookieAttrTrimmed c (strTrim part0)

/-- Parse one `Set-Cookie` header value the way
`extractCookiesFromResponse` does: split on `;`, split the first piece
once on `=`, trim the name, keep it only when it carries a known
anti-bot name, then fold the remaining attribute pieces. -/
def parseSetCookie (cookieStr : String) : Option Cookie :=
  match strSplitOn cookieStr ';' with
  | [] => none
  | p0 :: attrs =>
    match splitN2 p0 '=' with
    | [n, v] =>
      if isImpervaCookieName (strTrim n) then
        some (attrs.foldl applyCookieAttr
          { name := strTrim n, value := v, domain := ".resy.com", path := "/",
            secure := false, httpOnly := false, expiresRaw := "" })
      else none
    | _ => none

/-- Add-or-update: replace the first cookie with the same name in
place, otherwise append at the end. -/
def upsertCookie : List Cookie → Cookie → List Cookie
  | [], c => [c]
  | c0 :: rest, c =>
    if c0.name == c.name then c :: rest else c0 :: upsertCookie rest c

/-- Merge one `Set-Cookie` header value into the live cookie set. -/
def harvestOne (cs : List Cookie) (str : String) : List Cookie :=
  match parseSetCookie str with
  | none => cs
  | some c => upsertCookie cs c

/-- `extractCookiesFromResponse`: only acts when the response looks like
an Imperva/nginx challenge; harvests every `Set-Cookie` header in
order. -/
def extractCookiesFromResponse (r : Resp) (cs : List Cookie) : List Cookie :=
  if r.xCdn == "Imperva" || r.server == "nginx" then
    r.setCookies.foldl harvestOne cs
  else cs

/-- What one attempt of the retry loop observes: either a transport
error from `client.Do` or a response. -/
inductive HttpResult where
  | transportFail (msg : String)
  | response (r : Resp)
deriving Repr, DecidableEq

/-- The error outcomes of `doRequestWithRetry`: `api.ErrImperva`, a
transport error propagated from `client.Do`, or the (unreachable)
`"max retries exceeded"` fallthrough. -/
inductive ReqError where
  | imperva
  | transport (msg : String)
  | maxRetriesExceeded
deriving Repr, DecidableEq

/-- Result of the retry loop: response or error, the cookie set after
the harvests, and the number of attempts performed. -/
structure RetryResult where
  result : Except ReqError Resp
  cookies : List Cookie
  attempts : Nat
deriving Repr

/-- The body of `doRequestWithRetry`'s `for attempt := 0; attempt <=
maxRetries` loop.  `oracle n` is what the `n`-th send of the request
observes; `remaining = maxRetries - attempt` counts the retries still
allowed.  A challenge harvests cookies and retries while attempts
remain, otherwise yields `ErrImperva`; a transport error or a
non-challenge response ends the loop at once. -/
def doRequestAux (oracle : Nat → HttpResult) :
    Nat → Nat → List Cookie → RetryResult
  | attempt, 0, cs =>
    match oracle attempt with
    | .transportFail msg => ⟨.error (.transport msg), cs, attempt + 1⟩
    | .response r =>
      if isImpervaChallenge r then
        ⟨.error .imperva, extractCookiesFromResponse r cs, attempt + 1⟩
      else ⟨.ok r, cs, attempt + 1⟩
  | attempt, rem + 1, cs =>
    match oracle attempt with
    | .transportFail msg => ⟨.error (.transport msg), cs, attempt + 1⟩
    | .response r =>
      if isImpervaChallenge r then
        doRequestAux oracle (attempt + 1) rem (extractCookiesFromResponse r cs)
      else ⟨.ok r, cs, attempt + 1⟩

/-- `doRequestWithRetry` with its initial attempt counter. -/
def doRequestWithRetry (oracle : Nat → HttpResult) (maxRetries : Nat)
    (cs : List Cookie) : RetryResult :=
  doRequestAux oracle 0 maxRetries cs

lemma doRequestAux_all_challenges (oracle : Nat → HttpResult) :
    ∀ (remaining attempt : Nat) (cs : List Cookie),
      (∀ n, attempt ≤ n → n ≤ attempt + remaining →
        ∃ r, oracle n = .response r ∧ isImpervaChallenge r = true) →
      (doRequestAux oracle attempt remaining cs).result = .error .imperva ∧
      (doRequestAux oracle attempt remaining cs).attempts = attempt + remaining + 1 := by
  intro remaining
  induction remaining with
  | zero =>
    intro attempt cs hch
    obtain ⟨r, hr, hc⟩ := hch attempt (Nat.le_refl _) (Nat.le_add_right _ _)
    simp only [doRequestAux, hr]
    rw [if_pos hc]
    exact ⟨rfl, rfl⟩
  | succ rem ih =>
    intro attempt cs hch
    obtain ⟨r, hr, hc⟩ := hch attempt (Nat.le_refl _) (Nat.le_add_right _ _)
    simp only [doRequestAux, hr]
    rw [if_pos hc]
    have hrec := ih (attempt + 1) (extractCookiesFromResponse r cs)
      (fun n hn1 hn2 => hch n (Nat.le_of_succ_le hn1) (by omega))
    exact ⟨hrec.1, by rw [hrec.2]; omega⟩

/-- C4: when every response received is an Imperva challenge, the retry
loop performs exactly `maxRetries + 1` attempts (i.e. `maxRetries`
retries) and returns `api.ErrImperva`, never a transport error. -/
theorem challengeClient_exhausts_to_imperva (oracle : Nat → HttpResult)
    (maxRetries : Nat) (cs : List Cookie)
    (hch : ∀ n, n ≤ maxRetries →
      ∃ r, oracle n = .response r ∧ isImpervaChallenge r = true) :
    (doRequestWithRetry oracle maxRetries cs).result = .error .imperva ∧
    (doRequestWithRetry oracle maxRetries cs).attempts = maxRetries + 1 := by
  have h := doRequestAux_all_challenges oracle maxRetries 0 cs
    (fun n _ hle => hch n (by omega))
  exact ⟨h.1, by rw [doRequestWithRetry, h.2]; omega⟩

/-- Witness for C4: three identical 500/Imperva challenge responses
with `maxRetries = 2` end in `ErrImperva` after exactly 3 attempts. -/
theorem challengeClient_exhausts_to_imperva_witness :
    (doRequestWithRetry (fun _ => .response (Resp.mk 500 "Imperva" "" [])) 2 []).result
        = .error .imperva ∧
    (doRequestWithRetry (fun _ => .response (Resp.mk 500 "Imperva" "" [])) 2 []).attempts
        = 3 :=
  challengeClient_exhausts_to_imperva (fun _ => .response (Resp.mk 500 "Imperva" "" []))
    2 [] (fun n _ => ⟨Resp.mk 500 "Imperva" "" [], rfl, by decide⟩)

lemma applyCookieAttr_name (c : Cookie) (p : String) :
    (applyCookieAttr c p).name = c.name := by
  unfold applyCookieAttr applyCookieAttrTrimmed
  split
  · rfl
  · split
    · rfl
    · split
      · rfl
      · split
        · rfl
        · split
          · rfl
          · rfl

lemma foldl_applyCookieAttr_name (attrs : List String) :
    ∀ c : Cookie, (attrs.foldl applyCookieAttr c).name = c.name := by
  induction attrs with
  | nil => intro c; rfl
  | cons a as ih => intro c; rw [List.foldl_cons, ih, applyCookieAttr_name]

lemma parseSetCookie_name {str : String} {c : Cookie}
    (h : parseSetCookie str = some c) : isImpervaCookieName c.name = true := by
  unfold parseSetCookie at h
  rcases hsp : strSplitOn str ';' with _ | ⟨p0, attrs⟩
  · simp only [hsp] at h
    exact Option.noConfusion h
  · simp only [hsp] at h
    rcases hnv : splitN2 p0 '=' with _ | ⟨n, _ | ⟨v, _ | ⟨w, rest⟩⟩⟩ <;>
      simp only [hnv] at h
    · exact Option.noConfusion h
    · exact Option.noConfusion h
    · split at h
      · cases h
        rw [foldl_applyCookieAttr_name]
        assumption
      · exact Option.noConfusion h
    · exact Option.noConfusion h

lemma upsertCookie_mem {cs : List Cookie} {c : Cookie} :
    ∀ c' ∈ upsertCookie cs c, c' ∈ cs ∨ c' = c := by
  induction cs with
  | nil => intro c' h; simp only [upsertCookie] at h; simp at h; exact Or.inr h
  | cons c0 rest ih =>
    intro c' h
    simp only [upsertCookie] at h
    by_cases he : c0.name == c.name
    · rw [if_pos he] at h
      rcases List.mem_cons.mp h with rfl | h
      · exact Or.inr rfl
      · exact Or.inl (List.mem_cons_of_mem c0 h)
    · rw [if_neg he] at h
      rcases List.mem_cons.mp h with rfl | h
      · exact Or.inl (List.mem_cons_self _ _)
      · rcases ih c' h with h | h
        · exact Or.inl (List.mem_cons_of_mem c0 h)
        · exact Or.inr h

lemma mem_names_upsertCookie {cs : List Cookie} {c : Cookie} {n : String}
    (h : n ∈ (upsertCookie cs c).map Cookie.name) :
    n ∈ cs.map Cookie.name ∨ n = c.name := by
  obtain ⟨c', hc', rfl⟩ := List.mem_map.mp h
  rcases upsertCookie_mem c' hc' with h | rfl
  · exact Or.inl (List.mem_map_of_mem Cookie.name h)
  · exact Or.inr rfl

lemma upsertCookie_names_nodup {cs : List Cookie} {c : Cookie}
    (h : (cs.map Cookie.name).Nodup) :
    ((upsertCookie cs c).map Cookie.name).Nodup := by
  induction cs with
  | nil => simp [upsertCookie]
  | cons c0 rest ih =>
    simp only [List.map_cons, List.nodup_cons] at h
    simp only [upsertCookie]
    by_cases he : c0.name == c.name
    · rw [if_pos he]
      have : c.name = c0.name := (beq_iff_eq.mp he).symm
      simp only [List.map_cons, List.nodup_cons, this]
      exact h
    · rw [if_neg he]
      simp only [List.map_cons, List.nodup_cons]
      refine ⟨fun hmem => ?_, ih h.2⟩
      rcases mem_names_upsertCookie hmem with hmem | hmem
      · exact h.1 hmem
      · exact he (beq_iff_eq.mpr hmem)

lemma upsertCookie_names_of_mem {cs : List Cookie} {c : Cookie}
    (h : c.name ∈ cs.map Cookie.name) :
    (upsertCookie cs c).map Cookie.name = cs.map Cookie.name := by
  induction cs with
  | nil => simp at h
  | cons c0 rest ih =>
    simp only [upsertCookie]
    by_cases he : c0.name == c.name
    · rw [if_pos he]
      simp only [List.map_cons]
      rw [beq_iff_eq.mp he]
    · rw [if_neg he]
      simp only [List.map_cons] at h ⊢
      rcases List.mem_cons.mp h with heq | hmem
      · exact absurd (beq_iff_eq.mpr heq.symm) he
      · rw [ih hmem]

lemma harvestOne_mem {cs : List Cookie} {str : String} :
    ∀ c' ∈ harvestOne cs str, c' ∈ cs ∨ isImpervaCookieName c'.name = true := by
  intro c' h
  unfold harvestOne at h
  rcases hp : parseSetCookie str with _ | c <;> rw [hp] at h
  · exact Or.inl h
  · rcases upsertCookie_mem c' h with h | rfl
    · exact Or.inl h
    · exact Or.inr (parseSetCookie_name hp)

lemma harvestOne_names_nodup {cs : List Cookie} {str : String}
    (h : (cs.map Cookie.name).Nodup) :
    ((harvestOne cs str).map Cookie.name).Nodup := by
  unfold harvestOne
  rcases hp : parseSetCookie str with _ | c
  · exact h
  · exact upsertCookie_names_nodup h

lemma harvest_foldl_mem (strs : List String) :
    ∀ cs : List Cookie, ∀ c' ∈ strs.foldl harvestOne cs,
      c' ∈ cs ∨ isImpervaCookieName c'.name = true := by
  induction strs with
  | nil => intro cs c' h; exact Or.inl h
  | cons s ss ih =>
    intro cs c' h
    rw [List.foldl_cons] at h
    rcases ih (harvestOne cs s) c' h with h | h
    · exact harvestOne_mem c' h
    · exact Or.inr h

lemma harvest_foldl_nodup (strs : List String) :
    ∀ cs : List Cookie, (cs.map Cookie.name).Nodup →
      ((strs.foldl harvestOne cs).map Cookie.name).Nodup := by
  induction strs with
  | nil => intro cs h; exact h
  | cons s ss ih =>
    intro cs h
    rw [List.foldl_cons]
    exact ih _ (harvestOne_names_nodup h)

/-- C9: harvesting a challenge response only ever adds cookies whose
names carry a known anti-bot name (`_incap_`, `incap_ses_`, `_visid_`,
`visid_incap_`, `nlbi_`); a harvested cookie whose name is already
present replaces the existing one in place (the name multiset does not
grow); and consequently a cookie set with pairwise-distinct names still
has pairwise-distinct names after the harvest. -/
theorem cookieHarvest_prefix_filter_and_unique (r : Resp) (cs : List Cookie) :
    (∀ c ∈ extractCookiesFromResponse r cs,
      c ∈ cs ∨ isImpervaCookieName c.name = true) ∧
    ((cs.map Cookie.name).Nodup →
      ((extractCookiesFromResponse r cs).map Cookie.name).Nodup) ∧
    (∀ str c, parseSetCookie str = some c → c.name ∈ cs.map Cookie.name →
      (harvestOne cs str).map Cookie.name = cs.map Cookie.name) := by
  refine ⟨?_, ?_, ?_⟩
  · intro c hc
    unfold extractCookiesFromResponse at hc
    by_cases hhdr : (r.xCdn == "Imperva" || r.server == "nginx") = true
    · rw [if_pos hhdr] at hc
      exact harvest_foldl_mem r.setCookies cs c hc
    · rw [if_neg hhdr] at hc
      exact Or.inl hc
  · intro hnd
    unfold extractCookiesFromResponse
    by_cases hhdr : (r.xCdn == "Imperva" || r.server == "nginx") = true
    · rw [if_pos hhdr]
      exact harvest_foldl_nodup r.setCookies cs hnd
    · rw [if_neg hhdr]
      exact hnd
  · intro str c hp hmem
    unfold harvestOne
    rw [hp]
    exact upsertCookie_names_of_mem hmem

/-- Witness for C9: harvesting `incap_ses_1=new` into a set already
holding a cookie named `incap_ses_1` keeps the name set unchanged and
duplicate-free. -/
theorem cookieHarvest_prefix_filter_and_unique_witness :
    ((extractCookiesFromResponse
        (Resp.mk 403 "Imperva" "" ["incap_ses_1=new"])
        [Cookie.mk "incap_ses_1" "old" ".resy.com" "/" false false ""]).map
      Cookie.name).Nodup ∧
    (harvestOne [Cookie.mk "incap_ses_1" "old" ".resy.com" "/" false false ""]
        "incap_ses_1=new").map Cookie.name
      = [Cookie.mk "incap_ses_1" "old" ".resy.com" "/" false false ""].map
          Cookie.name := by
  constructor
  · exact (cookieHarvest_prefix_filter_and_unique
      (Resp.mk 403 "Imperva" "" ["incap_ses_1=new"])
      [Cookie.mk "incap_ses_1" "old" ".resy.com" "/" false false ""]).2.1
      (by decide)
  · exact (cookieHarvest_prefix_filter_and_unique
      (Resp.mk 403 "Imperva" "" ["incap_ses_1=new"])
      [Cookie.mk "incap_ses_1" "old" ".resy.com" "/" false false ""]).2.2
      "incap_ses_1=new"
      (Cookie.mk "incap_ses_1" "new" ".resy.com" "/" false false "")
      (by decide) (by decide)

/-! ## Booking pipeline: find response handling and pair iteration -/

/-- One venue result block of the find response: the
`venue.id.resy` identifier when the block carries one in valid shape,
and the `slots` list when the `slots` key is present and valid. -/
structure VenueBlock where
  resyId : Option Int
  slots : Option (List Slot)
deriving Repr, DecidableEq

/-- The typed failures `Reserve` can produce, mirroring the sentinel
errors and constructors of the `api` package. -/
inductive ApiError where
  | noOffer
  | noTable
  | imperva
  | network (step : String) (status : Nat) (msg : String)
  | jsonFail (msg : String)
deriving Repr, DecidableEq

/-- Outcome of the detail→book steps for one matched slot, as decided
by the network.  Constructors mirror the branch taken by the source:
`detailHTTPFail` and `detailJsonFail` abort the whole pipeline
(`return`), everything else except `success` falls through to the next
(table-type, time) pair (`continue`). -/
inductive BookAttempt where
  | detailSendFail
  | detailHTTPFail (status : Nat) (body : String)
  | detailJsonFail (msg : String)
  | detailNoBookToken
  | bookSendFail
  | bookHTTPFail (status : Nat)
  | bookJsonFail
  | bookNoConfirmation
  | success
deriving Repr, DecidableEq

/-- True for the outcomes on which the source executes `continue`,
moving on to the next (table-type, time) pair — including the
payment-specific 402 book failure. -/
def continuesToNextPair : BookAttempt → Bool
  | .detailSendFail => true
  | .detailNoBookToken => true
  | .bookSendFail => true
  | .bookHTTPFail _ => true
  | .bookJsonFail => true
  | .bookNoConfirmation => true
  | _ => false

/-- The table-preference iteration of `Reserve`: the preference list
itself, or the single "any" sentinel (no filter) when none are given. -/
def prefSeq (tableTypes : List String) : List (Option String) :=
  match tableTypes with
  | [] => [none]
  | ts => ts.map some

/-- Attempt one (table-type, time) pair: run the slot search; on a
match, run detail→book with the outcome given by `outcome`.
`some r` ends the whole pipeline with result `r`; `none` falls through
to the next pair. -/
def runPair (slots : List Slot)
    (outcome : Option String → NYCTime → Slot → BookAttempt)
    (pref : Option String) (t : NYCTime) : Option (Except ApiError NYCTime) :=
  match findBestSlot slots t pref with
  | none => none
  | some s =>
    match outcome pref t s with
    | .success => some (.ok s.start)
    | .detailHTTPFail status body => some (.error (.network "detail" status body))
    | .detailJsonFail msg => some (.error (.jsonFail msg))
    | _ => none

/-- The inner loop of `Reserve` over the requested instants for one
table-type preference. -/
def runTimes (slots : List Slot)
    (outcome : Option String → NYCTime → Slot → BookAttempt)
    (pref : Option String) : List NYCTime → Option (Except ApiError NYCTime)
  | [] => none
  | t :: rest =>
    match runPair slots outcome pref t with
    | some r => some r
    | none => runTimes slots outcome pref rest

/-- The outer loop of `Reserve` over the table-type preferences. -/
def runPrefs (slots : List Slot)
    (outcome : Option String → NYCTime → Slot → BookAttempt)
    (times : List NYCTime) :
    List (Option String) → Option (Except ApiError NYCTime)
  | [] => none
  | p :: rest =>
    match runTimes slots outcome p times with
    | some r => some r
    | none => runPrefs slots outcome times rest

/-- The venue chosen from the find response: the first block whose
`venue.id.resy` equals the requested venue id, else (with a logged
warning) the first block. -/
def chosenVenue (v0 : VenueBlock) (venues : List VenueBlock)
    (venueID : Int) : VenueBlock :=
  (venues.find? (fun v => v.resyId == some venueID)).getD v0

/-- `Reserve` from the parsed find response onward: an empty venue list
is `ErrNoOffer`; a chosen venue without a valid `slots` key is a find
network error; otherwise the Cartesian pair iteration runs, and
exhaustion without a successful book is `ErrNoTable`. -/
def reserveFromFind (venues : List VenueBlock) (venueID : Int)
    (tableTypes : List String) (times : List NYCTime)
    (outcome : Option String → NYCTime → Slot → BookAttempt) :
    Except ApiError NYCTime :=
  match venues with
  | [] => .error .noOffer
  | v0 :: _ =>
    match (chosenVenue v0 venues venueID).slots with
    | none => .error (.network "find" 0
        "invalid response: slots key not found in venue")
    | some slots =>
      match runPrefs slots outcome times (prefSeq tableTypes) with
      | some r => r
      | none => .error .noTable

instance {α β : Type} [DecidableEq α] [DecidableEq β] :
    DecidableEq (Except α β) := fun a b =>
  match a, b with
  | .ok x, .ok y =>
    if h : x = y then isTrue (by rw [h])
    else isFalse (by intro hh; cases hh; exact h rfl)
  | .error x, .error y =>
    if h : x = y then isTrue (by rw [h])
    else isFalse (by intro hh; cases hh; exact h rfl)
  | .ok _, .error _ => isFalse (by intro hh; cases hh)
  | .error _, .ok _ => isFalse (by intro hh; cases hh)

lemma runPair_ne_noOffer (slots : List Slot)
    (outcome : Option String → NYCTime → Slot → BookAttempt)
    (pref : Option String) (t : NYCTime) :
    runPair slots outcome pref t ≠ some (.error .noOffer) := by
  unfold runPair
  rcases hfs : findBestSlot slots t pref with _ | s <;> simp only [hfs]
  · simp
  · rcases ho : outcome pref t s with _ | _ | _ | _ | _ | _ | _ | _ | _ <;>
      simp only [ho] <;> simp

lemma runTimes_ne_noOffer (slots : List Slot)
    (outcome : Option String → NYCTime → Slot → BookAttempt)
    (pref : Option String) (times : List NYCTime) :
    runTimes slots outcome pref times ≠ some (.error .noOffer) := by
  induction times with
  | nil => simp [runTimes]
  | cons t rest ih =>
    unfold runTimes
    rcases hp : runPair slots outcome pref t with _ | r
    · exact ih
    · intro hcontra
      cases hcontra
      exact runPair_ne_noOffer slots outcome pref t hp

lemma runPrefs_ne_noOffer (slots : List Slot)
    (outcome : Option String → NYCTime → Slot → BookAttempt)
    (times : List NYCTime) (prefs : List (Option String)) :
    runPrefs slots outcome times prefs ≠ some (.error .noOffer) := by
  induction prefs with
  | nil => simp [runPrefs]
  | cons p rest ih =>
    unfold runPrefs
    rcases ht : runTimes slots outcome p times with _ | r
    · exact ih
    · intro hcontra
      cases hcontra
      exact runTimes_ne_noOffer slots outcome p times ht

/-- Counterexample for C5: a find response containing one venue block
with an empty slot list yields no reservation slot at all for the
requested date, yet the pipeline fails with `ErrNoTable`, not
`ErrNoOffer`. -/
theorem noOffer_counterexample :
    reserveFromFind [VenueBlock.mk (some 89607) (some [])] 89607 []
        [NYCTime.mk 2025 12 1 19 0] (fun _ _ _ => .success)
      = .error .noTable ∧
    reserveFromFind [VenueBlock.mk (some 89607) (some [])] 89607 []
        [NYCTime.mk 2025 12 1 19 0] (fun _ _ _ => .success)
      ≠ .error .noOffer := by
  exact ⟨by decide, by decide⟩

/-- C5 amended: the pipeline fails with `ErrNoOffer` exactly when the
find response contains no venue result block at all (an empty `venues`
list); a present venue with an empty slot list instead falls through
the pair iteration into `ErrNoTable`. -/
theorem noOffer_iff_empty_venues (venues : List VenueBlock) (venueID : Int)
    (tableTypes : List String) (times : List NYCTime)
    (outcome : Option String → NYCTime → Slot → BookAttempt) :
    reserveFromFind venues venueID tableTypes times outcome = .error .noOffer
      ↔ venues = [] := by
  constructor
  · intro h
    rcases venues with _ | ⟨v0, rest⟩
    · rfl
    · exfalso
      unfold reserveFromFind at h
      rcases hs : (chosenVenue v0 (v0 :: rest) venueID).slots with _ | slots <;>
        simp only [hs] at h
      · cases h
      · rcases hr : runPrefs slots outcome times (prefSeq tableTypes) with _ | r <;>
          simp only [hr] at h
        · cases h
        · exact runPrefs_ne_noOffer slots outcome times (prefSeq tableTypes) (hr.trans (by rw [h]))
  · intro h
    subst h
    rfl

/-- Witness for C5 amended: the empty find response gives `ErrNoOffer`. -/
theorem noOffer_iff_empty_venues_witness :
    reserveFromFind [] 89607 [] [NYCTime.mk 2025 12 1 19 0]
        (fun _ _ _ => .success)
      = .error .noOffer :=
  (noOffer_iff_empty_venues [] 89607 [] [NYCTime.mk 2025 12 1 19 0]
    (fun _ _ _ => .success)).mpr rfl

lemma runPair_none_of_continue (slots : List Slot)
    (outcome : Option String → NYCTime → Slot → BookAttempt)
    (pref : Option String) (t : NYCTime)
    (h : ∀ s, findBestSlot slots t pref = some s →
      continuesToNextPair (outcome pref t s) = true) :
    runPair slots outcome pref t = none := by
  unfold runPair
  rcases hfs : findBestSlot slots t pref with _ | s <;> simp only [hfs]
  have hc := h s hfs
  rcases ho : outcome pref t s with _ | _ | _ | _ | _ | _ | _ | _ | _ <;>
    simp only [ho] <;> rw [ho] at hc <;> first | rfl | cases hc

lemma runTimes_none_of_continue (slots : List Slot)
    (outcome : Option String → NYCTime → Slot → BookAttempt)
    (pref : Option String) (times : List NYCTime)
    (h : ∀ t ∈ times, ∀ s, findBestSlot slots t pref = some s →
      continuesToNextPair (outcome pref t s) = true) :
    runTimes slots outcome pref times = none := by
  induction times with
  | nil => rfl
  | cons t rest ih =>
    unfold runTimes
    rw [runPair_none_of_continue slots outcome pref t
      (h t (List.mem_cons_self _ _))]
    exact ih (fun t' ht' => h t' (List.mem_cons_of_mem t ht'))

lemma runPrefs_none_of_continue (slots : List Slot)
    (outcome : Option String → NYCTime → Slot → BookAttempt)
    (times : List NYCTime) (prefs : List (Option String))
    (h : ∀ p ∈ prefs, ∀ t ∈ times, ∀ s, findBestSlot slots t p = some s →
      continuesToNextPair (outcome p t s) = true) :
    runPrefs slots outcome times prefs = none := by
  induction prefs with
  | nil => rfl
  | cons p rest ih =>
    unfold runPrefs
    rw [runTimes_none_of_continue slots outcome p times
      (h p (List.mem_cons_self _ _))]
    exact ih (fun p' hp' => h p' (List.mem_cons_of_mem p hp'))

/-- C6: when every (table-type preference, requested instant) pair of
the Cartesian iteration — over the preference list or the single "any"
sentinel — either matches no slot or ends in an outcome on which the
source continues to the next pair (including a payment-specific 402 at
the book step), `Reserve` returns `ErrNoTable`. -/
theorem noTable_on_exhaustion (v0 : VenueBlock) (rest : List VenueBlock)
    (venueID : Int) (tableTypes : List String) (times : List NYCTime)
    (outcome : Option String → NYCTime → Slot → BookAttempt)
    (slots : List Slot)
    (hslots : (chosenVenue v0 (v0 :: rest) venueID).slots = some slots)
    (hcont : ∀ p ∈ prefSeq tableTypes, ∀ t ∈ times, ∀ s,
      findBestSlot slots t p = some s →
      continuesToNextPair (outcome p t s) = true) :
    reserveFromFind (v0 :: rest) venueID tableTypes times outcome
      = .error .noTable := by
  unfold reserveFromFind
  simp only [hslots]
  rw [runPrefs_none_of_continue slots outcome times (prefSeq tableTypes) hcont]

/-- Witness for C6: a single matching slot whose book step fails with a
402 payment status exhausts the single ("any", 19:00) pair and ends in
`ErrNoTable`. -/
theorem noTable_on_exhaustion_witness :
    reserveFromFind
        [VenueBlock.mk (some 89607)
          (some [Slot.mk (NYCTime.mk 2025 12 1 19 20) "Dining Room" "tok"])]
        89607 [] [NYCTime.mk 2025 12 1 19 0]
        (fun _ _ _ => .bookHTTPFail 402)
      = .error .noTable :=
  noTable_on_exhaustion
    (VenueBlock.mk (some 89607)
      (some [Slot.mk (NYCTime.mk 2025 12 1 19 20) "Dining Room" "tok"]))
    [] 89607 [] [NYCTime.mk 2025 12 1 19 0]
    (fun _ _ _ => .bookHTTPFail 402)
    [Slot.mk (NYCTime.mk 2025 12 1 19 20) "Dining Room" "tok"]
    (by decide)
    (fun _ _ _ _ _ _ => rfl)

/-! ## Scheduled-reservation store (store/reservations.go) and scheduler -/

/-- `ScheduledReservation` of store/reservations.go.  `runTime` and
`createdAt` are Unix seconds. -/
structure SchedRes where
  id : String
  venueID : Int
  reservationTime : NYCTime
  partySize : Nat
  tablePreferences : List String
  authToken : String
  runTime : Int
  createdAt : Int
deriving Repr, DecidableEq

/-- The Redis state the reservation store touches: the
`reservations:<id>` key-value records and the `reservations:pending`
sorted set (member, score) with `RunTime.Unix()` as score. -/
structure RedisState where
  kv : List (String × SchedRes)
  pendingSet : List (String × Int)
deriving Repr, DecidableEq

def emptyRedis : RedisState := ⟨[], []⟩

/-- Redis `SET`: replace the record stored under an existing key,
otherwise add the key. -/
def kvSet : List (String × SchedRes) → String → SchedRes → List (String × SchedRes)
  | [], k, v => [(k, v)]
  | (k0, v0) :: rest, k, v =>
    if k0 == k then (k, v) :: rest else (k0, v0) :: kvSet rest k v

/-- Redis `ZADD`: update the score of an existing member, otherwise add
the member. -/
def zadd : List (String × Int) → String → Int → List (String × Int)
  | [], m, sc => [(m, sc)]
  | (m0, sc0) :: rest, m, sc =>
    if m0 == m then (m, sc) :: rest else (m0, sc0) :: zadd rest m sc

/-- The sorted-set ordering: ascending score, ties broken by the
member string (Redis's lexicographic tie-break). -/
def zLt (a b : String × Int) : Bool :=
  decide (a.2 < b.2 ∨ (a.2 = b.2 ∧ a.1 < b.1))

/-- The member `ZRANGE key 0 0` returns: the minimum of the sorted set
under score-then-member order. -/
def zMin : List (String × Int) → Option (String × Int)
  | [] => none
  | z :: rest =>
    match zMin rest with
    | none => some z
    | some m => if zLt m z then some m else some z

/-- `SaveReservation`: store the record under `reservations:<id>` and
add the id to the pending sorted set scored by its run time. -/
def SaveReservation (st : RedisState) (res : SchedRes) : RedisState :=
  ⟨kvSet st.kv res.id res, zadd st.pendingSet res.id res.runTime⟩

/-- `GetReservation`: fetch the record stored under an id. -/
def GetReservation (st : RedisState) (id : String) : Option SchedRes :=
  (st.kv.find? (fun p => p.1 == id)).map Prod.snd

/-- `GetNextReservation`: the record of the first member of the pending
sorted set, `none` when the set is empty (the record-fetch error path
of the source is also `none` here). -/
def GetNextReservation (st : RedisState) : Option SchedRes :=
  match zMin st.pendingSet with
  | none => none
  | some m => GetReservation st m.1

/-- `DeleteReservation`: `ZREM` the id from the pending set and `DEL`
its record. -/
def DeleteReservation (st : RedisState) (id : String) : RedisState :=
  ⟨st.kv.filter (fun p => !(p.1 == id)),
    st.pendingSet.filter (fun z => !(z.1 == id))⟩

lemma kvSet_append (kv : List (String × SchedRes)) (k : String) (v : SchedRes)
    (h : k ∉ kv.map Prod.fst) : kvSet kv k v = kv ++ [(k, v)] := by
  induction kv with
  | nil => rfl
  | cons p rest ih =>
    obtain ⟨k0, v0⟩ := p
    simp only [List.map_cons, List.mem_cons] at h
    push_neg at h
    simp only [kvSet]
    rw [if_neg (by simp; exact fun he => h.1 he.symm)]
    rw [ih h.2]
    rfl

lemma zadd_append (zs : List (String × Int)) (m : String) (sc : Int)
    (h : m ∉ zs.map Prod.fst) : zadd zs m sc = zs ++ [(m, sc)] := by
  induction zs with
  | nil => rfl
  | cons p rest ih =>
    obtain ⟨m0, sc0⟩ := p
    simp only [List.map_cons, List.mem_cons] at h
    push_neg at h
    simp only [zadd]
    rw [if_neg (by simp; exact fun he => h.1 he.symm)]
    rw [ih h.2]
    rfl

lemma foldl_save (l : List SchedRes) :
    ∀ st : RedisState,
      (∀ r ∈ l, r.id ∉ st.kv.map Prod.fst ∧ r.id ∉ st.pendingSet.map Prod.fst) →
      (l.map SchedRes.id).Nodup →
      (l.foldl SaveReservation st).kv
          = st.kv ++ l.map (fun r => (r.id, r)) ∧
      (l.foldl SaveReservation st).pendingSet
          = st.pendingSet ++ l.map (fun r => (r.id, r.runTime)) := by
  induction l with
  | nil => intro st _ _; simp
  | cons r rest ih =>
    intro st hfresh hnd
    have hr := hfresh r (List.mem_cons_self _ _)
    have hsave : SaveReservation st r
        = ⟨st.kv ++ [(r.id, r)], st.pendingSet ++ [(r.id, r.runTime)]⟩ := by
      unfold SaveReservation
      rw [kvSet_append _ _ _ hr.1, zadd_append _ _ _ hr.2]
    simp only [List.map_cons, List.nodup_cons] at hnd
    have hfresh' : ∀ r' ∈ rest,
        r'.id ∉ (st.kv ++ [(r.id, r)]).map Prod.fst ∧
        r'.id ∉ (st.pendingSet ++ [(r.id, r.runTime)]).map Prod.fst := by
      intro r' hr'
      have h1 := hfresh r' (List.mem_cons_of_mem r hr')
      have hne : r'.id ≠ r.id :=
        fun he => hnd.1 (he ▸ List.mem_map_of_mem SchedRes.id hr')
      constructor <;>
        simp [List.mem_append, h1.1, h1.2, hne]
    rw [List.foldl_cons, hsave]
    obtain ⟨hkv, hpend⟩ := ih ⟨st.kv ++ [(r.id, r)],
      st.pendingSet ++ [(r.id, r.runTime)]⟩ hfresh' hnd.2
    rw [hkv, hpend]
    simp

lemma zLt_irrefl (a : String × Int) : zLt a a = false := by
  simp [zLt, lt_irrefl]

lemma zLt_asymm {a b : String × Int} (h : zLt a b = true) : zLt b a = false := by
  simp only [zLt, decide_eq_true_eq] at h
  simp only [zLt, decide_eq_false_iff_not]
  rintro (h2 | ⟨h2, h1⟩) <;> rcases h with h2' | ⟨h2', h1'⟩
  · omega
  · omega
  · omega
  · exact absurd h1 (lt_asymm h1')

lemma not_zLt_trans {a b c : String × Int} (hab : zLt a b = false)
    (hbc : zLt b c = false) : zLt a c = false := by
  simp only [zLt, decide_eq_false_iff_not] at hab hbc
  push_neg at hab hbc
  obtain ⟨hab2, hab1⟩ := hab
  obtain ⟨hbc2, hbc1⟩ := hbc
  simp only [zLt, decide_eq_false_iff_not]
  rintro (h2 | ⟨h2, h1⟩)
  · omega
  · have hba : a.2 = b.2 := by omega
    have hcb : b.2 = c.2 := by omega
    exact absurd h1 (not_lt.mpr (le_trans (hbc1 hcb) (hab1 hba)))

lemma zMin_eq_none {zs : List (String × Int)} (h : zMin zs = none) : zs = [] := by
  cases zs with
  | nil => rfl
  | cons z rest =>
    exfalso
    simp only [zMin] at h
    rcases hrest : zMin rest with _ | m <;> simp only [hrest] at h
    · cases h
    · rcases hlt : zLt m z <;> simp [hlt] at h

lemma zMin_mem : ∀ (zs : List (String × Int)) (m : String × Int),
    zMin zs = some m → m ∈ zs := by
  intro zs
  induction zs with
  | nil => intro m h; cases h
  | cons z rest ih =>
    intro m h
    simp only [zMin] at h
    rcases hrest : zMin rest with _ | m0 <;> simp only [hrest] at h
    · cases h
      exact List.mem_cons_self _ _
    · rcases hlt : zLt m0 z <;> simp [hlt] at h
      · subst h
        exact List.mem_cons_self _ _
      · subst h
        exact List.mem_cons_of_mem z (ih m0 hrest)

lemma zMin_min : ∀ (zs : List (String × Int)) (m : String × Int),
    zMin zs = some m → ∀ e ∈ zs, zLt e m = false := by
  intro zs
  induction zs with
  | nil => intro m h; cases h
  | cons z rest ih =>
    intro m h e he
    simp only [zMin] at h
    rcases hrest : zMin rest with _ | m0 <;> simp only [hrest] at h
    · cases h
      have hnil := zMin_eq_none hrest
      subst hnil
      rcases List.mem_cons.mp he with rfl | he
      · exact zLt_irrefl e
      · exact absurd he (List.not_mem_nil e)
    · rcases hlt : zLt m0 z <;> simp [hlt] at h
      · subst h
        rcases List.mem_cons.mp he with rfl | he
        · exact zLt_irrefl e
        · exact not_zLt_trans (ih m0 hrest e he) hlt
      · subst h
        rcases List.mem_cons.mp he with rfl | he
        · exact zLt_asymm hlt
        · exact ih m0 hrest e he

lemma find_map_id (l : List SchedRes) (r : SchedRes)
    (hnd : (l.map SchedRes.id).Nodup) (hmem : r ∈ l) :
    (l.map (fun x => (x.id, x))).find? (fun p => p.1 == r.id)
      = some (r.id, r) := by
  induction l with
  | nil => exact absurd hmem (List.not_mem_nil r)
  | cons r0 rest ih =>
    simp only [List.map_cons, List.nodup_cons] at hnd
    rcases List.mem_cons.mp hmem with rfl | hmem'
    · simp [List.find?_cons]
    · have hne : r0.id ≠ r.id := fun he =>
        hnd.1 (he ▸ List.mem_map_of_mem SchedRes.id hmem')
      simp only [List.map_cons, List.find?_cons]
      rw [show ((r0.id, r0).1 == r.id) = false from
        beq_eq_false_iff_ne.mpr hne]
      exact ih hnd.2 hmem'

/-- C7: after any sequence of insertions of records with pairwise
distinct ids into the empty scheduled queue, peeking returns the record
with the strictly earliest run instant, regardless of insertion order;
and peeking the empty queue returns `none`. -/
theorem scheduledQueue_peek_earliest (inserts : List SchedRes) (r : SchedRes)
    (hnodup : (inserts.map SchedRes.id).Nodup) (hmem : r ∈ inserts)
    (hmin : ∀ r' ∈ inserts, r' ≠ r → r.runTime < r'.runTime) :
    GetNextReservation (inserts.foldl SaveReservation emptyRedis) = some r ∧
    GetNextReservation emptyRedis = none := by
  refine ⟨?_, rfl⟩
  obtain ⟨hkv, hpend⟩ := foldl_save inserts emptyRedis
    (fun r' _ => ⟨by simp [emptyRedis], by simp [emptyRedis]⟩) hnodup
  have hpend' : (inserts.foldl SaveReservation emptyRedis).pendingSet
      = inserts.map (fun x => (x.id, x.runTime)) := by
    rw [hpend]; simp [emptyRedis]
  have hkv' : (inserts.foldl SaveReservation emptyRedis).kv
      = inserts.map (fun x => (x.id, x)) := by
    rw [hkv]; simp [emptyRedis]
  have hzmem : (r.id, r.runTime) ∈ inserts.map (fun x => (x.id, x.runTime)) :=
    List.mem_map_of_mem _ hmem
  unfold GetNextReservation
  rw [hpend']
  rcases hzm : zMin (inserts.map fun x => (x.id, x.runTime)) with _ | m <;>
    simp only [hzm]
  · exfalso
    rw [zMin_eq_none hzm] at hzmem
    exact absurd hzmem (List.not_mem_nil _)
  · obtain ⟨r', hr', hre⟩ := List.mem_map.mp (zMin_mem _ m hzm)
    have hnotlt := zMin_min _ m hzm (r.id, r.runTime) hzmem
    have hreq : r' = r := by
      by_contra hne
      have hrt := hmin r' hr' hne
      rw [← hre] at hnotlt
      simp only [zLt, decide_eq_false_iff_not] at hnotlt
      exact hnotlt (Or.inl hrt)
    subst hreq
    have hm1 : m.1 = r'.id := by rw [← hre]
    rw [hm1]
    unfold GetReservation
    rw [hkv', find_map_id inserts r' hnodup hr']
    rfl

/-- Witness for C7: inserting A due at 10, then B due at 5, then C due
at 20 makes peek return B. -/
theorem scheduledQueue_peek_earliest_witness :
    GetNextReservation
        ([SchedRes.mk "A" 89607 (NYCTime.mk 2025 12 1 19 0) 2 [] "" 10 0,
          SchedRes.mk "B" 89607 (NYCTime.mk 2025 12 1 19 0) 2 [] "" 5 0,
          SchedRes.mk "C" 89607 (NYCTime.mk 2025 12 1 19 0) 2 [] "" 20 0
          ].foldl SaveReservation emptyRedis)
      = some (SchedRes.mk "B" 89607 (NYCTime.mk 2025 12 1 19 0) 2 [] "" 5 0) ∧
    GetNextReservation emptyRedis = none :=
  scheduledQueue_peek_earliest
    [SchedRes.mk "A" 89607 (NYCTime.mk 2025 12 1 19 0) 2 [] "" 10 0,
      SchedRes.mk "B" 89607 (NYCTime.mk 2025 12 1 19 0) 2 [] "" 5 0,
      SchedRes.mk "C" 89607 (NYCTime.mk 2025 12 1 19 0) 2 [] "" 20 0]
    (SchedRes.mk "B" 89607 (NYCTime.mk 2025 12 1 19 0) 2 [] "" 5 0)
    (by decide) (by decide) (by decide)

/-- One iteration of the `handleScheduledReservations` loop of main.go:
peek the next reservation (errors and an empty queue both wait and
retry); if it is not yet due, sleep and retry; if due, attempt the
booking — whose success or failure `bookSucceeds` only feeds the log —
and delete the record from Redis regardless of the outcome.  The
returned option reports the attempted id and its outcome. -/
def dispatchStep (st : RedisState) (now : Int) (bookSucceeds : Bool) :
    RedisState × Option (String × Bool) :=
  match GetNextReservation st with
  | none => (st, none)
  | some r =>
    if now < r.runTime then (st, none)
    else (DeleteReservation st r.id, some (r.id, bookSucceeds))

/-- `fuel` iterations of the scheduler loop, collecting the attempted
(id, outcome) pairs; `nows k` and `outcomes k` are the clock reading
and the booking outcome of iteration `k`. -/
def dispatchRun (nows : Nat → Int) (outcomes : Nat → Bool) :
    Nat → Nat → RedisState → List (String × Bool)
  | _, 0, _ => []
  | k, fuel + 1, st =>
    match dispatchStep st (nows k) (outcomes k) with
    | (st', none) => dispatchRun nows outcomes (k + 1) fuel st'
    | (st', some a) => a :: dispatchRun nows outcomes (k + 1) fuel st'

/-- The record stored under key `reservations:<id>` has `id` as its id
field — true of every state `SaveReservation` builds. -/
def KvWellFormed (st : RedisState) : Prop :=
  ∀ p ∈ st.kv, p.2.id = p.1

lemma getNextReservation_id_mem {st : RedisState} {r : SchedRes}
    (hwf : KvWellFormed st) (h : GetNextReservation st = some r) :
    r.id ∈ st.pendingSet.map Prod.fst := by
  unfold GetNextReservation at h
  rcases hzm : zMin st.pendingSet with _ | m <;> simp only [hzm] at h
  · cases h
  · unfold GetReservation at h
    rcases hf : st.kv.find? (fun p => p.1 == m.1) with _ | p <;>
      simp only [hf] at h
    · cases h
    · have h' : p.2 = r := by simpa using h
      have hpeq := List.find?_some hf
      have hpmem := List.mem_of_find?_eq_some hf
      have hid : r.id = m.1 := by
        rw [← h', hwf p hpmem]
        exact beq_iff_eq.mp hpeq
      rw [hid]
      exact List.mem_map_of_mem Prod.fst (zMin_mem _ m hzm)

lemma not_mem_delete (st : RedisState) (id : String) :
    id ∉ (DeleteReservation st id).pendingSet.map Prod.fst := by
  simp only [DeleteReservation, List.mem_map, List.mem_filter]
  rintro ⟨z, ⟨_, hneq⟩, hz1⟩
  simp only [Bool.not_eq_eq_eq_not, Bool.not_true, beq_eq_false_iff_ne] at hneq
  exact hneq hz1

lemma mem_delete_subset {st : RedisState} {id x : String}
    (h : x ∈ (DeleteReservation st id).pendingSet.map Prod.fst) :
    x ∈ st.pendingSet.map Prod.fst := by
  simp only [DeleteReservation, List.mem_map, List.mem_filter] at h
  obtain ⟨z, ⟨hz, _⟩, hz1⟩ := h
  exact List.mem_map.mpr ⟨z, hz, hz1⟩

lemma kvWellFormed_delete {st : RedisState} (hwf : KvWellFormed st)
    (id : String) : KvWellFormed (DeleteReservation st id) := by
  intro p hp
  exact hwf p (List.mem_of_mem_filter hp)

lemma dispatchRun_attempted_mem (nows : Nat → Int) (outcomes : Nat → Bool) :
    ∀ (fuel k : Nat) (st : RedisState), KvWellFormed st →
      ∀ x ∈ (dispatchRun nows outcomes k fuel st).map Prod.fst,
        x ∈ st.pendingSet.map Prod.fst := by
  intro fuel
  induction fuel with
  | zero => intro k st _ x hx; simp [dispatchRun] at hx
  | succ fuel ih =>
    intro k st hwf x hx
    simp only [dispatchRun, dispatchStep] at hx
    rcases hn : GetNextReservation st with _ | r <;> simp only [hn] at hx
    · exact ih (k + 1) st hwf x hx
    · by_cases hdue : nows k < r.runTime
      · rw [if_pos hdue] at hx
        exact ih (k + 1) st hwf x hx
      · rw [if_neg hdue] at hx
        simp only [List.map_cons, List.mem_cons] at hx
        rcases hx with rfl | hx
        · exact getNextReservation_id_mem hwf hn
        · exact mem_delete_subset
            (ih (k + 1) _ (kvWellFormed_delete hwf r.id) x hx)

lemma dispatchRun_attempted_nodup (nows : Nat → Int) (outcomes : Nat → Bool) :
    ∀ (fuel k : Nat) (st : RedisState), KvWellFormed st →
      ((dispatchRun nows outcomes k fuel st).map Prod.fst).Nodup := by
  intro fuel
  induction fuel with
  | zero => intro k st _; simp [dispatchRun]
  | succ fuel ih =>
    intro k st hwf
    simp only [dispatchRun, dispatchStep]
    rcases hn : GetNextReservation st with _ | r <;> simp only [hn]
    · exact ih (k + 1) st hwf
    · by_cases hdue : nows k < r.runTime
      · rw [if_pos hdue]
        exact ih (k + 1) st hwf
      · rw [if_neg hdue]
        simp only [List.map_cons, List.nodup_cons]
        refine ⟨fun hmem => ?_, ih (k + 1) _ (kvWellFormed_delete hwf r.id)⟩
        exact not_mem_delete st r.id
          (dispatchRun_attempted_mem nows outcomes fuel (k + 1) _
            (kvWellFormed_delete hwf r.id) r.id hmem)

/-- C8: once a due scheduled reservation is attempted, its record is
deleted from the queue whether the booking succeeded or failed
(`bookSucceeds` only reaches the log), so over any run of the
dispatcher loop no scheduled record id is ever attempted a second
time. -/
theorem dispatcher_deletes_attempted_and_never_reattempts :
    (∀ (st : RedisState) (now : Int) (b : Bool) (r : SchedRes),
      GetNextReservation st = some r → ¬ now < r.runTime →
      dispatchStep st now b
          = (DeleteReservation st r.id, some (r.id, b)) ∧
      r.id ∉ (DeleteReservation st r.id).pendingSet.map Prod.fst) ∧
    (∀ (nows : Nat → Int) (outcomes : Nat → Bool) (fuel : Nat)
        (st : RedisState), KvWellFormed st →
      ((dispatchRun nows outcomes 0 fuel st).map Prod.fst).Nodup) := by
  constructor
  · intro st now b r hn hdue
    refine ⟨?_, not_mem_delete st r.id⟩
    unfold dispatchStep
    simp only [hn]
    rw [if_neg hdue]
  · intro nows outcomes fuel st hwf
    exact dispatchRun_attempted_nodup nows outcomes fuel 0 st hwf

/-- Witness for C8: a queue holding one record due at 5, polled at
time 10, is attempted and deleted — identically for a failed (`false`)
and a successful (`true`) booking outcome — and a three-step run over
that queue never attempts an id twice. -/
theorem dispatcher_deletes_attempted_witness :
    (dispatchStep (SaveReservation emptyRedis
        (SchedRes.mk "A" 89607 (NYCTime.mk 2025 12 1 19 0) 2 [] "" 5 0)) 10 false
      = (DeleteReservation (SaveReservation emptyRedis
          (SchedRes.mk "A" 89607 (NYCTime.mk 2025 12 1 19 0) 2 [] "" 5 0)) "A",
          some ("A", false))) ∧
    (dispatchStep (SaveReservation emptyRedis
        (SchedRes.mk "A" 89607 (NYCTime.mk 2025 12 1 19 0) 2 [] "" 5 0)) 10 true
      = (DeleteReservation (SaveReservation emptyRedis
          (SchedRes.mk "A" 89607 (NYCTime.mk 2025 12 1 19 0) 2 [] "" 5 0)) "A",
          some ("A", true))) ∧
    ((dispatchRun (fun _ => 10) (fun _ => false) 0 3
        (SaveReservation emptyRedis
          (SchedRes.mk "A" 89607 (NYCTime.mk 2025 12 1 19 0) 2 [] "" 5 0))).map
      Prod.fst).Nodup := by
  refine ⟨?_, ?_, ?_⟩
  · exact (dispatcher_deletes_attempted_and_never_reattempts.1
      (SaveReservation emptyRedis
        (SchedRes.mk "A" 89607 (NYCTime.mk 2025 12 1 19 0) 2 [] "" 5 0)) 10 false
      (SchedRes.mk "A" 89607 (NYCTime.mk 2025 12 1 19 0) 2 [] "" 5 0)
      (by decide) (by decide)).1
  · exact (dispatcher_deletes_attempted_and_never_reattempts.1
      (SaveReservation emptyRedis
        (SchedRes.mk "A" 89607 (NYCTime.mk 2025 12 1 19 0) 2 [] "" 5 0)) 10 true
      (SchedRes.mk "A" 89607 (NYCTime.mk 2025 12 1 19 0) 2 [] "" 5 0)
      (by decide) (by decide)).1
  · exact dispatcher_deletes_attempted_and_never_reattempts.2
      (fun _ => 10) (fun _ => false) 3
      (SaveReservation emptyRedis
        (SchedRes.mk "A" 89607 (NYCTime.mk 2025 12 1 19 0) 2 [] "" 5 0))
      (by unfold KvWellFormed; decide)

/-! ## Admin-token validation -/

/-- `Config.HasAdminToken`. -/
def HasAdminToken (adminToken : String) : Bool :=
  adminToken != ""

/-- `Config.ValidateAdminToken`: with no token configured every token is
denied; otherwise exact equality. -/
def ValidateAdminToken (adminToken token : String) : Bool :=
  if !HasAdminToken adminToken then false
  else token == adminToken

/-- `validateAdminToken` of main.go: with no configured token, check the
`token` query parameter (development path); with a configured token,
check the `Authorization: Bearer <token>` header, falling back to the
query parameter when the header is absent (Go's `Header.Get` yields
`""`). -/
def validateAdminToken (adminToken authHeader queryToken : String) : Bool :=
  if !HasAdminToken adminToken then
    queryToken != "" && ValidateAdminToken adminToken queryToken
  else if authHeader == "" then
    ValidateAdminToken adminToken queryToken
  else
    match splitN2 authHeader ' ' with
    | [p0, p1] =>
      if p0 == "Bearer" then ValidateAdminToken adminToken p1 else false
    | _ => false

/-- C10: with an empty `ADMIN_TOKEN`, every admin request is rejected,
whatever `Authorization` header or `token` query parameter it
carries — `ValidateAdminToken` denies all tokens when none is
configured, so the development query-parameter path also denies. -/
theorem adminToken_empty_denies_all (authHeader queryToken : String) :
    validateAdminToken "" authHeader queryToken = false := by
  simp [validateAdminToken, ValidateAdminToken, HasAdminToken]

end ResyBot
